import Mathlib

/-!
Verification of the WFS client library (`LK_WFS.py` / `LK_WFS_v2.py`).

Numeric bounding-box coordinates are modelled as rationals; feature
counts as naturals; the effective feature cap (which in `LK_WFS.py` may
be `0.98 * MaxFeatures`, a non-integer) as a rational.  Network
exchanges (hit-count queries, feature fetches) are modelled as oracle
parameters, and the partition loop of `get_feature`/`get_features` as a
fuel-indexed worklist recursion over the queue of pending bounding
boxes, mirroring Python's iteration over a list that is appended to
while being traversed (new boxes go to the end of the queue).
-/

namespace LKWFS

/-- A bounding box `[minx, miny, maxx, maxy]`, as handled by both
`WFS.__split_bbox` (LK_WFS.py:304-329) and `WFSClient.__split_bbox`
(LK_WFS_v2.py:218-243).  The Python code stores the coordinates as
strings and converts with `float(...)`; we model the numeric values
directly. -/
structure Rect where
  minx : ℚ
  miny : ℚ
  maxx : ℚ
  maxy : ℚ
deriving DecidableEq, Repr

/-- `WFS.__split_bbox` / `WFSClient.__split_bbox` (identical in both
files): if `(maxx - minx) < (maxy - miny)` the box is cut at the
vertical midpoint `miny + (maxy - miny)/2`, otherwise at the horizontal
midpoint `minx + (maxx - minx)/2`; the two halves are returned in order
`[bb1, bb2]`. -/
def split_bbox (r : Rect) : Rect × Rect :=
  if r.maxx - r.minx < r.maxy - r.miny then
    (⟨r.minx, r.miny, r.maxx, r.miny + (r.maxy - r.miny) / 2⟩,
     ⟨r.minx, r.miny + (r.maxy - r.miny) / 2, r.maxx, r.maxy⟩)
  else
    (⟨r.minx, r.miny, r.minx + (r.maxx - r.minx) / 2, r.maxy⟩,
     ⟨r.minx + (r.maxx - r.minx) / 2, r.miny, r.maxx, r.maxy⟩)

/-- Closed-rectangle membership of a point in a bounding box. -/
def Rect.mem (p : ℚ × ℚ) (r : Rect) : Prop :=
  r.minx ≤ p.1 ∧ p.1 ≤ r.maxx ∧ r.miny ≤ p.2 ∧ p.2 ≤ r.maxy

instance (p : ℚ × ℚ) (r : Rect) : Decidable (Rect.mem p r) := by
  unfold Rect.mem; infer_instance

/-- Open-rectangle (interior) membership. -/
def Rect.memInterior (p : ℚ × ℚ) (r : Rect) : Prop :=
  r.minx < p.1 ∧ p.1 < r.maxx ∧ r.miny < p.2 ∧ p.2 < r.maxy

instance (p : ℚ × ℚ) (r : Rect) : Decidable (Rect.memInterior p r) := by
  unfold Rect.memInterior; infer_instance

/-- Area of a bounding box. -/
def Rect.area (r : Rect) : ℚ :=
  (r.maxx - r.minx) * (r.maxy - r.miny)

/-- The property asserted of `split_bbox` by the spec: the two halves
cover the box exactly, their areas sum to the box's area, any common
point lies on one of the two midpoint lines, and the interiors are
disjoint. -/
def splitCoversExactly (r : Rect) : Prop :=
  (∀ p : ℚ × ℚ, Rect.mem p r ↔ (Rect.mem p (split_bbox r).1 ∨ Rect.mem p (split_bbox r).2)) ∧
  Rect.area (split_bbox r).1 + Rect.area (split_bbox r).2 = Rect.area r ∧
  (∀ p : ℚ × ℚ, Rect.mem p (split_bbox r).1 → Rect.mem p (split_bbox r).2 →
      p.1 = r.minx + (r.maxx - r.minx) / 2 ∨ p.2 = r.miny + (r.maxy - r.miny) / 2) ∧
  (∀ p : ℚ × ℚ, ¬ (Rect.memInterior p (split_bbox r).1 ∧ Rect.memInterior p (split_bbox r).2))

/-- C1: for every bounding box with `minx ≤ maxx` and `miny ≤ maxy`,
`split_bbox` returns two boxes whose union exactly covers the input,
whose areas sum to its area, and which overlap only on the shared
midpoint edge (no gap, no interior overlap). -/
theorem split_bbox_covers_exactly (r : Rect)
    (hx : r.minx ≤ r.maxx) (hy : r.miny ≤ r.maxy) : splitCoversExactly r := by
  unfold splitCoversExactly split_bbox
  by_cases h : r.maxx - r.minx < r.maxy - r.miny <;>
    simp only [h, if_true, if_false, reduceIte] <;>
    refine ⟨fun p => ⟨fun hp => ?_, fun hp => ?_⟩, by simp only [Rect.area]; ring,
      fun p h1 h2 => ?_, fun p hp => ?_⟩
  · obtain ⟨h1, h2, h3, h4⟩ := hp
    rcases le_total p.2 (r.miny + (r.maxy - r.miny) / 2) with hc | hc
    · exact Or.inl ⟨h1, h2, h3, hc⟩
    · exact Or.inr ⟨h1, h2, hc, h4⟩
  · rcases hp with ⟨h1, h2, h3, h4⟩ | ⟨h1, h2, h3, h4⟩ <;>
      exact ⟨h1, h2, by linarith, by linarith⟩
  · exact Or.inr (le_antisymm h1.2.2.2 h2.2.2.1)
  · obtain ⟨⟨_, _, _, ha⟩, ⟨_, _, hb, _⟩⟩ := hp
    exact absurd (ha.trans hb) (lt_irrefl _)
  · obtain ⟨h1, h2, h3, h4⟩ := hp
    rcases le_total p.1 (r.minx + (r.maxx - r.minx) / 2) with hc | hc
    · exact Or.inl ⟨h1, hc, h3, h4⟩
    · exact Or.inr ⟨hc, h2, h3, h4⟩
  · rcases hp with ⟨h1, h2, h3, h4⟩ | ⟨h1, h2, h3, h4⟩ <;>
      exact ⟨by linarith, by linarith, h3, h4⟩
  · exact Or.inl (le_antisymm h1.2.1 h2.1)
  · obtain ⟨⟨_, ha, _, _⟩, ⟨hb, _, _, _⟩⟩ := hp
    exact absurd (ha.trans hb) (lt_irrefl _)

/-- Witness for C1 at the concrete box `[0, 0, 4, 2]`. -/
theorem split_bbox_covers_exactly_witness :
    (Rect.mk 0 0 4 2).minx ≤ (Rect.mk 0 0 4 2).maxx ∧
    (Rect.mk 0 0 4 2).miny ≤ (Rect.mk 0 0 4 2).maxy ∧
    splitCoversExactly (Rect.mk 0 0 4 2) :=
  ⟨by norm_num, by norm_num,
    split_bbox_covers_exactly (Rect.mk 0 0 4 2) (by norm_num) (by norm_num)⟩

/-- C2: `split_bbox` halves the width (a vertical cut at the horizontal
midpoint) whenever width ≥ height — in particular on an exact tie, so
the split of a square is deterministically along the x-axis — and
halves the height (a horizontal cut at the vertical midpoint) whenever
width < height. -/
theorem split_bbox_longer_axis (r : Rect) :
    (r.maxy - r.miny ≤ r.maxx - r.minx →
      split_bbox r =
        (⟨r.minx, r.miny, r.minx + (r.maxx - r.minx) / 2, r.maxy⟩,
         ⟨r.minx + (r.maxx - r.minx) / 2, r.miny, r.maxx, r.maxy⟩)) ∧
    (r.maxx - r.minx < r.maxy - r.miny →
      split_bbox r =
        (⟨r.minx, r.miny, r.maxx, r.miny + (r.maxy - r.miny) / 2⟩,
         ⟨r.minx, r.miny + (r.maxy - r.miny) / 2, r.maxx, r.maxy⟩)) := by
  constructor <;> intro h <;> unfold split_bbox
  · rw [if_neg (not_lt.mpr h)]
  · rw [if_pos h]

/-- Witness for C2 on the square `[0, 0, 2, 2]` (tie case: width is
halved) and the tall box `[0, 0, 1, 4]` (height is halved). -/
theorem split_bbox_longer_axis_witness :
    split_bbox (Rect.mk 0 0 2 2) = (Rect.mk 0 0 1 2, Rect.mk 1 0 2 2) ∧
    split_bbox (Rect.mk 0 0 1 4) = (Rect.mk 0 0 1 2, Rect.mk 0 2 1 4) :=
  ⟨by
    have h := (split_bbox_longer_axis (Rect.mk 0 0 2 2)).1 (by norm_num)
    norm_num at h
    exact h,
   by
    have h := (split_bbox_longer_axis (Rect.mk 0 0 1 4)).2 (by norm_num)
    norm_num at h
    exact h⟩

/-! ## The partitioning loop of `get_feature` / `get_features`

`WFS.get_feature` (LK_WFS.py:539-555) runs, when no `count` override is
set:

    bboxes = self.bboxes.copy()
    for bbox in bboxes:
        hits = self.__get_hits(feature_name, bbox)
        if hits > self.maxfeatures:
            for bb in self.__split_bbox(bbox): bboxes.append(bb)
        else:
            gdf = self.__get_features_gdf(feature_name, bbox)
            gdfs.append(gdf)

Iterating over a list while appending to it is a FIFO worklist: the two
halves go to the end of the queue.  `WFSClient.get_features`
(LK_WFS_v2.py:400-410) runs the same loop when the server advertises
`hits` support.  The network hit counter is modelled as an oracle
`hits : Rect → ℕ`; the loop is fuel-indexed because the source has no
depth bound (spec §9). -/

/-- Events observable in one `get_feature` run: a hit-count query for a
box, a fetch of a box (with its optional row cap), or a split of a
box. -/
inductive Event where
  | hitsQuery : Rect → Event
  | fetch : Rect → Option ℕ → Event
  | splitEv : Rect → Event
deriving DecidableEq, Repr

/-- The two halves of a box, in the order `__split_bbox` returns them. -/
def splitList (r : Rect) : List Rect :=
  [(split_bbox r).1, (split_bbox r).2]

/-- The partitioning worklist loop: pop a box, query its hit count;
if `hits > maxfeatures`, append its two halves to the end of the queue,
otherwise fetch the box (no row cap). Returns the event trace. -/
def partitionTrace (hits : Rect → ℕ) (maxfeatures : ℚ) :
    ℕ → List Rect → List Event
  | 0, _ => []
  | _ + 1, [] => []
  | fuel + 1, b :: rest =>
    if (hits b : ℚ) > maxfeatures then
      Event.hitsQuery b :: Event.splitEv b ::
        partitionTrace hits maxfeatures fuel (rest ++ splitList b)
    else
      Event.hitsQuery b :: Event.fetch b none ::
        partitionTrace hits maxfeatures fuel rest

/-- `WFS.get_feature` after resolving the bounding boxes
(LK_WFS.py:537-555): with a non-null `count` it performs exactly one
fetch of the first bounding box, carrying `count` as the row cap;
otherwise it runs the partitioning loop. -/
def getFeatureTrace (hits : Rect → ℕ) (maxfeatures : ℚ) (fuel : ℕ)
    (bboxes : List Rect) (count : Option ℕ) : List Event :=
  match count, bboxes with
  | some n, b :: _ => [Event.fetch b (some n)]
  | some _, [] => []
  | none, _ => partitionTrace hits maxfeatures fuel bboxes

/-- C3: in a partitioning run (no `count` override), every fetched box
has hit count at most `maxfeatures` and is fetched with no row cap; and
each queue step fetches the popped box exactly when its hit count is at
most `maxfeatures`, otherwise appending its two halves to the queue
without fetching it. -/
theorem partition_fetched_le (hits : Rect → ℕ) (maxfeatures : ℚ) :
    (∀ (fuel : ℕ) (bboxes : List Rect) (b : Rect) (c : Option ℕ),
       Event.fetch b c ∈ getFeatureTrace hits maxfeatures fuel bboxes none →
       (hits b : ℚ) ≤ maxfeatures ∧ c = none) ∧
    (∀ (fuel : ℕ) (b : Rect) (rest : List Rect),
       partitionTrace hits maxfeatures (fuel + 1) (b :: rest) =
         if (hits b : ℚ) > maxfeatures then
           Event.hitsQuery b :: Event.splitEv b ::
             partitionTrace hits maxfeatures fuel (rest ++ splitList b)
         else
           Event.hitsQuery b :: Event.fetch b none ::
             partitionTrace hits maxfeatures fuel rest) := by
  constructor
  · have key : ∀ (fuel : ℕ) (bboxes : List Rect) (b : Rect) (c : Option ℕ),
        Event.fetch b c ∈ partitionTrace hits maxfeatures fuel bboxes →
        (hits b : ℚ) ≤ maxfeatures ∧ c = none := by
      intro fuel
      induction fuel with
      | zero => intro bboxes b c hmem; simp [partitionTrace] at hmem
      | succ n ih =>
        intro bboxes b c hmem
        match bboxes with
        | [] => simp [partitionTrace] at hmem
        | q :: rest =>
          by_cases hq : (hits q : ℚ) > maxfeatures
          · rw [partitionTrace, if_pos hq] at hmem
            simp only [List.mem_cons] at hmem
            rcases hmem with h | h | h
            · exact absurd h (by simp)
            · exact absurd h (by simp)
            · exact ih _ b c h
          · rw [partitionTrace, if_neg hq] at hmem
            simp only [List.mem_cons] at hmem
            rcases hmem with h | h | h
            · exact absurd h (by simp)
            · obtain ⟨hb, hc⟩ := Event.fetch.inj h.symm
              exact ⟨hb ▸ not_lt.mp hq, hc.symm⟩
            · exact ih _ b c h
    intro fuel bboxes b c hmem
    exact key fuel bboxes b c hmem
  · intro fuel b rest
    rfl

/-- Witness for C3: with a constant hit count of 5 against a cap of 7,
the single queued box is fetched and the theorem yields `5 ≤ 7` for it. -/
theorem partition_fetched_le_witness :
    Event.fetch (Rect.mk 0 0 1 1) none ∈
      getFeatureTrace (fun _ => 5) 7 1 [Rect.mk 0 0 1 1] none ∧
    ((5 : ℕ) : ℚ) ≤ 7 :=
  ⟨by decide,
   ((partition_fetched_le (fun _ => 5) 7).1 1 [Rect.mk 0 0 1 1]
      (Rect.mk 0 0 1 1) none (by decide)).1⟩

/-! ## Request parameters of the fetch (`WFS.__get_features_gdf`) -/

/-- The request parameters assembled by `WFS.__get_features_gdf`
(LK_WFS.py:396-411) that depend on the protocol version and the
optional row cap: for versions `1.0.0`/`1.1.0` the feature type is sent
as `typeName` and the cap (when present) as `maxfeatures`; for other
versions as `typeNames` and `count`. -/
structure FetchParams where
  resulttype : String
  typeNameKey : String
  maxfeaturesParam : Option ℕ
  countParam : Option ℕ
deriving DecidableEq, Repr

/-- Parameter assembly of `WFS.__get_features_gdf` (LK_WFS.py:399-409). -/
def get_features_gdf_params (version : String) (count : Option ℕ) : FetchParams :=
  if version = "1.0.0" ∨ version = "1.1.0" then
    { resulttype := "results", typeNameKey := "typeName",
      maxfeaturesParam := count, countParam := none }
  else
    { resulttype := "results", typeNameKey := "typeNames",
      maxfeaturesParam := none, countParam := count }

/-- C6: with a non-null `count = n`, `get_feature` bypasses
partitioning — the trace is exactly one fetch of the first bounding box
with cap `n`, so no hit-count query and no split ever occurs — and the
request carries the cap as `maxfeatures` for versions `1.0.0`/`1.1.0`
and as `count` otherwise. -/
theorem get_feature_count_bypass (hits : Rect → ℕ) (maxfeatures : ℚ)
    (fuel : ℕ) (b : Rect) (rest : List Rect) (n : ℕ) (version : String) :
    getFeatureTrace hits maxfeatures fuel (b :: rest) (some n) =
      [Event.fetch b (some n)] ∧
    (∀ r, Event.hitsQuery r ∉ getFeatureTrace hits maxfeatures fuel (b :: rest) (some n)) ∧
    (∀ r, Event.splitEv r ∉ getFeatureTrace hits maxfeatures fuel (b :: rest) (some n)) ∧
    (version = "1.0.0" ∨ version = "1.1.0" →
      get_features_gdf_params version (some n) =
        { resulttype := "results", typeNameKey := "typeName",
          maxfeaturesParam := some n, countParam := none }) ∧
    (¬ (version = "1.0.0" ∨ version = "1.1.0") →
      get_features_gdf_params version (some n) =
        { resulttype := "results", typeNameKey := "typeNames",
          maxfeaturesParam := none, countParam := some n }) := by
  refine ⟨rfl, fun r => ?_, fun r => ?_, fun hv => ?_, fun hv => ?_⟩
  · simp [getFeatureTrace]
  · simp [getFeatureTrace]
  · simp [get_features_gdf_params, hv]
  · simp [get_features_gdf_params, hv]

/-- Witness for C6 at version `1.1.0` and version `2.0.0` with cap 50. -/
theorem get_feature_count_bypass_witness :
    get_features_gdf_params "1.1.0" (some 50) =
      { resulttype := "results", typeNameKey := "typeName",
        maxfeaturesParam := some 50, countParam := none } ∧
    get_features_gdf_params "2.0.0" (some 50) =
      { resulttype := "results", typeNameKey := "typeNames",
        maxfeaturesParam := none, countParam := some 50 } :=
  ⟨(get_feature_count_bypass (fun _ => 0) 0 0 (Rect.mk 0 0 1 1) [] 50
      "1.1.0").2.2.2.1 (by simp),
   (get_feature_count_bypass (fun _ => 0) 0 0 (Rect.mk 0 0 1 1) [] 50
      "2.0.0").2.2.2.2 (by simp)⟩

/-! ## Version selection (C4)

`WFS.__init__` (LK_WFS.py:133-139):

    if not hasattr(self, 'version'):
        try:
            self.version = sorted(self.operations['GetCapabilities']['AcceptVersions'], reverse=True)[0]
        except:
            self.version = '1.0.0'
    elif self.version not in self.operations['GetCapabilities']['AcceptVersions']:
        raise ValueError(...)

`WFSClient.__init__` (LK_WFS_v2.py:97) instead sets
`self.version = root.attrib['version']` unconditionally, after any
caller-supplied `version` keyword was written onto the instance — the
caller's version is silently overwritten and never validated. -/

/-- Python's `sorted(vs, reverse=True)`: stable sort in descending
lexicographic order. -/
def pySortedDesc (vs : List String) : List String :=
  vs.mergeSort (fun a b => decide (b ≤ a))

/-- Version selection in `WFS.__init__` (LK_WFS.py:133-139).
`acceptVersions` is `none` when the discovered operations lack a
`GetCapabilities`/`AcceptVersions` entry (a `KeyError` in Python, which
the `try` of the no-version branch absorbs but the explicit-version
branch does not). -/
def selectVersionWFS (acceptVersions : Option (List String))
    (requested : Option String) : Except String String :=
  match requested with
  | some v =>
    match acceptVersions with
    | some vs => if v ∈ vs then Except.ok v else Except.error "UnsupportedVersion"
    | none => Except.error "KeyError"
  | none =>
    match acceptVersions with
    | some vs =>
      match pySortedDesc vs with
      | v :: _ => Except.ok v
      | [] => Except.ok "1.0.0"
    | none => Except.ok "1.0.0"

/-- Version selection in `WFSClient.__init__` (LK_WFS_v2.py:97): the
version attribute of the capabilities document is used, whatever the
caller requested. -/
def selectVersionWFSClient (rootVersion : String) (_requested : Option String) :
    Except String String :=
  Except.ok rootVersion

theorem pySortedDesc_head_max (vs : List String) (m : String) (tl : List String)
    (h : pySortedDesc vs = m :: tl) : m ∈ vs ∧ ∀ w ∈ vs, w ≤ m := by
  have hperm := List.mergeSort_perm vs (fun a b => decide (b ≤ a))
  have hsorted := @List.sorted_mergeSort String
    (fun a b : String => decide (b ≤ a))
    (fun a b c h1 h2 => by
      simp only [decide_eq_true_eq] at *
      exact le_trans h2 h1)
    (fun a b => by
      simpa using le_total b a)
    vs
  rw [pySortedDesc] at h
  rw [h] at hperm hsorted
  constructor
  · exact hperm.mem_iff.mp (List.mem_cons_self m tl)
  · intro w hw
    have hw' : w ∈ m :: tl := hperm.mem_iff.mpr hw
    rcases List.mem_cons.mp hw' with rfl | hwtl
    · exact le_refl w
    · have := (List.pairwise_cons.mp hsorted).1 w hwtl
      simpa using this

/-- C4 (amended): in `WFS` a requested version not in the discovered
`AcceptVersions` fails at construction, a requested supported version
is kept, and with no requested version the lexicographically highest
supported version is chosen; `WFSClient` never validates — it always
uses the capabilities document's own version attribute. -/
theorem version_selection (vs : List String) (v root : String)
    (req : Option String) :
    (v ∉ vs → selectVersionWFS (some vs) (some v) =
      Except.error "UnsupportedVersion") ∧
    (v ∈ vs → selectVersionWFS (some vs) (some v) = Except.ok v) ∧
    (vs ≠ [] → ∃ m, selectVersionWFS (some vs) none = Except.ok m ∧
      m ∈ vs ∧ ∀ w ∈ vs, w ≤ m) ∧
    selectVersionWFSClient root req = Except.ok root := by
  refine ⟨fun hnot => ?_, fun hmem => ?_, fun hne => ?_, rfl⟩
  · simp [selectVersionWFS, hnot]
  · simp [selectVersionWFS, hmem]
  · have hlen : (pySortedDesc vs).length = vs.length :=
      (List.mergeSort_perm vs _).length_eq
    match hsd : pySortedDesc vs with
    | [] =>
      rw [hsd] at hlen
      exact absurd (List.length_eq_zero.mp hlen.symm) hne
    | m :: tl =>
      obtain ⟨hmem, hmax⟩ := pySortedDesc_head_max vs m tl hsd
      refine ⟨m, ?_, hmem, hmax⟩
      simp only [selectVersionWFS, hsd]

/-- Witness for C4's amended theorem on the version list
`["1.1.0", "2.0.0"]`: an unknown version is rejected, a supported one
is kept, some maximal supported version is chosen by default, and
`WFSClient` returns the document's version. -/
theorem version_selection_witness :
    selectVersionWFS (some ["1.1.0", "2.0.0"]) (some "3.0.0") =
      Except.error "UnsupportedVersion" ∧
    selectVersionWFS (some ["1.1.0", "2.0.0"]) (some "1.1.0") =
      Except.ok "1.1.0" ∧
    (∃ m, selectVersionWFS (some ["1.1.0", "2.0.0"]) none = Except.ok m ∧
      m ∈ ["1.1.0", "2.0.0"] ∧ ∀ w ∈ ["1.1.0", "2.0.0"], w ≤ m) ∧
    selectVersionWFSClient "2.0.0" (some "9.9.9") = Except.ok "2.0.0" := by
  obtain ⟨h1, h2, h3, _⟩ :=
    version_selection ["1.1.0", "2.0.0"] "3.0.0" "2.0.0" (some "9.9.9")
  obtain ⟨_, h2', h3', h4'⟩ :=
    version_selection ["1.1.0", "2.0.0"] "1.1.0" "2.0.0" (some "9.9.9")
  exact ⟨h1 (by decide), h2' (by decide), h3' (by decide), h4'⟩

/-- C4 counterexample: `WFSClient` construction does not fail when the
caller requests version `"9.9.9"` even though the server's discovered
supported versions are `["2.0.0", "1.1.0"]` — the request is ignored
and the document's version `"2.0.0"` is used. -/
theorem wfsclient_version_not_validated :
    "9.9.9" ∉ (["2.0.0", "1.1.0"] : List String) ∧
    selectVersionWFSClient "2.0.0" (some "9.9.9") = Except.ok "2.0.0" :=
  ⟨by decide, rfl⟩

/-! ## Hit counting and its fallback (C5)

`WFS.__get_hits` (LK_WFS.py:367-376) wraps the whole exact-count
exchange in `try: ... hits = int(root.attrib['numberMatched']) ...
except: tmp_gdf = self.__get_features_gdf(...); return len(tmp_gdf)`.

`WFSClient.__get_hits` (LK_WFS_v2.py:276-294) has no `try`: a missing
or unparsable `numberMatched` raises out of the hit counter.  The
full-fetch row-count strategy in `WFSClient.get_features`
(LK_WFS_v2.py:400-418) is selected only by the `__can_get_hits`
capability flag, not by a failure of the exact-count query. -/

/-- `WFS.__get_hits`: `parsed` is the exact count when the whole
request/parse succeeded, `none` otherwise; on failure the result is
whatever the full fetch of the same bbox yields (its row count, or its
own error). -/
def get_hits_wfs (parsed : Option ℕ) (fetchRowCount : Except Unit ℕ) :
    Except Unit ℕ :=
  match parsed with
  | some n => Except.ok n
  | none => fetchRowCount

/-- `WFSClient.__get_hits`: no fallback, an unparsable response is an
error propagated to the caller. -/
def get_hits_wfsclient (parsed : Option ℕ) : Except Unit ℕ :=
  match parsed with
  | some n => Except.ok n
  | none => Except.error ()

/-- The per-bbox count used by `WFSClient.get_features`
(LK_WFS_v2.py:402-418): the exact hit counter when `__can_get_hits`,
otherwise the row count of a full fetch. -/
def wfsclient_count_strategy (canGetHits : Bool) (parsed : Option ℕ)
    (fetchRowCount : ℕ) : Except Unit ℕ :=
  if canGetHits then get_hits_wfsclient parsed else Except.ok fetchRowCount

/-- C5 counterexample: in `WFSClient`, with `hits` support advertised
and an exact-count response that lacks a parsable `numberMatched`, the
hit counter propagates an error to the partitioning loop instead of
falling back to the full-fetch row count (here 7). -/
theorem wfsclient_hits_error_propagates :
    wfsclient_count_strategy true none 7 = Except.error () ∧
    wfsclient_count_strategy true none 7 ≠ Except.ok 7 :=
  ⟨rfl, fun hcontra => Except.noConfusion hcontra⟩

/-- C5 (amended): in `WFS` an unparsable or failing exact-count query
falls back to the full fetch's row count instead of propagating, and a
parsable one returns the parsed count; in `WFSClient` the full-fetch
row-count strategy is used exactly when the server does not advertise
`hits` support, while a failing exact-count query under `hits` support
propagates an error. -/
theorem hit_counter_fallback (n fetchLen : ℕ) (fetchRes : Except Unit ℕ)
    (parsed : Option ℕ) :
    get_hits_wfs none fetchRes = fetchRes ∧
    get_hits_wfs none (Except.ok fetchLen) = Except.ok fetchLen ∧
    get_hits_wfs (some n) fetchRes = Except.ok n ∧
    wfsclient_count_strategy false parsed fetchLen = Except.ok fetchLen ∧
    wfsclient_count_strategy true none fetchLen = Except.error () :=
  ⟨rfl, rfl, rfl, rfl, rfl⟩

/-! ## The clip decision (C7)

`WFS.get_feature` (LK_WFS.py:562-563):

    if clip_gdf and self.__missing_default_bbox is False and len(gdf) > 0:
        gdf = self.__clip_gdf(gdf)

`__missing_default_bbox` is set only in `__init__` (False iff a `bbox`
keyword was supplied, LK_WFS.py:141-152); `WFS.__get_bbox`
(LK_WFS.py:196) sets `self.__default_bbox` when resolving a bbox from
the capabilities document mid-call but never updates the flag.
`WFSClient.get_features` (LK_WFS_v2.py:427-428) checks only
`if clip_gdf and len(gdf) > 0`. -/

/-- The default-bbox bookkeeping of `WFS`. -/
structure BboxState where
  missingDefaultBbox : Bool
  defaultBbox : Option Rect
deriving DecidableEq, Repr

/-- `WFS.__init__` (LK_WFS.py:141-152): both fields set from the
constructor `bbox` keyword. -/
def initBboxState (ctorBbox : Option Rect) : BboxState :=
  match ctorBbox with
  | some r => { missingDefaultBbox := false, defaultBbox := some r }
  | none => { missingDefaultBbox := true, defaultBbox := none }

/-- `WFS.__get_bbox` (LK_WFS.py:196): stores the resolved default bbox
but leaves `__missing_default_bbox` untouched. -/
def get_bbox_update (s : BboxState) (resolved : Rect) : BboxState :=
  { s with defaultBbox := some resolved }

/-- The guard of the clip step in `WFS.get_feature` (LK_WFS.py:562). -/
def clip_condition_wfs (clip_gdf : Bool) (s : BboxState) (resultLen : ℕ) : Bool :=
  clip_gdf && (s.missingDefaultBbox == false) && decide (0 < resultLen)

/-- The guard of the clip step in `WFSClient.get_features`
(LK_WFS_v2.py:427). -/
def clip_condition_wfsclient (clip_gdf : Bool) (resultLen : ℕ) : Bool :=
  clip_gdf && decide (0 < resultLen)

/-- C7 counterexample: constructed without a `bbox` keyword, then with
the default bbox resolved from the capabilities document mid-call, a
default bounding box exists, clipping is requested and the result has 5
rows — yet `WFS` skips the clip, because the guard tests the stale
`__missing_default_bbox` flag rather than the existence of the bbox. -/
theorem clip_skipped_despite_resolved_bbox :
    (get_bbox_update (initBboxState none) (Rect.mk 0 0 1 1)).defaultBbox =
      some (Rect.mk 0 0 1 1) ∧
    clip_condition_wfs true
      (get_bbox_update (initBboxState none) (Rect.mk 0 0 1 1)) 5 = false :=
  ⟨rfl, rfl⟩

/-- C7 (amended): in `WFS` the clip step runs iff clipping is
requested, a `bbox` was supplied at construction (the
missing-default-bbox flag is false), and the result is non-empty; a
default bbox resolved during the call leaves the flag, and hence the
clip decision, unchanged.  In `WFSClient` the clip step runs iff
clipping is requested and the result is non-empty. -/
theorem clip_condition (clip : Bool) (len : ℕ) (s : BboxState)
    (ctor : Option Rect) (r : Rect) :
    (clip_condition_wfs clip s len = true ↔
      clip = true ∧ s.missingDefaultBbox = false ∧ 0 < len) ∧
    (initBboxState ctor).missingDefaultBbox = ctor.isNone ∧
    (get_bbox_update s r).missingDefaultBbox = s.missingDefaultBbox ∧
    (get_bbox_update s r).defaultBbox = some r ∧
    (clip_condition_wfsclient clip len = true ↔ clip = true ∧ 0 < len) := by
  refine ⟨?_, ?_, rfl, rfl, ?_⟩
  · simp [clip_condition_wfs, and_assoc]
  · cases ctor <;> rfl
  · simp [clip_condition_wfsclient]

/-! ## Attribute-name flattening (C8)

Both `WFS.get_feature` (LK_WFS.py:556-558) and
`WFSClient.get_features` (LK_WFS_v2.py:422-424) run

    for col in gdf.columns.to_list():
        if '.' in col:
            gdf.rename(columns={col: col.replace('.', '_')}, inplace=True)

`str.replace('.', '_')` on a single character is a character-wise map;
columns without a `.` are left alone, which the map also does. -/

/-- The per-column-name flattening transform. -/
def flattenName (s : String) : String :=
  String.mk (s.data.map (fun c => if c = '.' then '_' else c))

/-- C8: flattening replaces every `.` by `_` (so `"a.b.c"` becomes
`"a_b_c"`), and is idempotent on every single name and on every list
of column names. -/
theorem flattenName_idempotent (cols : List String) :
    flattenName "a.b.c" = "a_b_c" ∧
    (∀ s : String, flattenName (flattenName s) = flattenName s) ∧
    (cols.map flattenName).map flattenName = cols.map flattenName := by
  have hsingle : ∀ s : String, flattenName (flattenName s) = flattenName s := by
    intro s
    simp only [flattenName, List.map_map]
    congr 1
    apply List.map_congr_left
    intro c _
    by_cases hc : c = '.' <;> simp [hc, Function.comp]
  refine ⟨rfl, hsingle, ?_⟩
  simp only [List.map_map]
  apply List.map_congr_left
  intro s _
  exact hsingle s

/-! ## The effective feature cap (C9)

`WFS.__init__` (LK_WFS.py:124-130): with no `maxfeatures` keyword,
`__get_maxfeatures` reads the `CountDefault` constraint from the
capabilities document (defaulting to 10000 on absence or any error,
LK_WFS.py:247-264) and then

    self.maxfeatures = self.operations['MaxFeatures'] * .98

so the value the partition loop compares hit counts against is 98% of
the advertised cap (9800.0 for the default 10000), not the advertised
integer. -/

/-- `WFS.__get_maxfeatures` (LK_WFS.py:247-264): the advertised
`CountDefault` value, or 10000 when absent/unparsable. -/
def get_maxfeatures (countDefault : Option ℤ) : ℤ :=
  countDefault.getD 10000

/-- The cap stored by `WFS.__init__` (LK_WFS.py:124-130): a caller
override is taken as-is; otherwise 0.98 times the advertised value. -/
def effective_maxfeatures (override : Option ℤ) (countDefault : Option ℤ) : ℚ :=
  match override with
  | some m => (m : ℚ)
  | none => (get_maxfeatures countDefault : ℚ) * 0.98

/-- C9: with no caller override the effective cap is 0.98 times the
advertised value — 9800 for the defaulted 10000, a non-integer scale of
the advertised cap in general — so a region whose hit count lies
strictly between 98% of the advertised cap and the cap itself
satisfies the split condition `hits > maxfeatures` even though it is
within the server's limit; a caller override is used unscaled. -/
theorem effective_cap_98_percent (M m : ℤ) (h : ℕ) (cd : Option ℤ) :
    effective_maxfeatures none (some M) = (M : ℚ) * 0.98 ∧
    effective_maxfeatures none none = 9800 ∧
    ((M : ℚ) * 0.98 < (h : ℚ) ∧ (h : ℚ) ≤ (M : ℚ) →
      (h : ℚ) > effective_maxfeatures none (some M)) ∧
    effective_maxfeatures (some m) cd = (m : ℚ) := by
  refine ⟨rfl, ?_, fun hh => ?_, rfl⟩
  · norm_num [effective_maxfeatures, get_maxfeatures]
  · calc effective_maxfeatures none (some M) = (M : ℚ) * 0.98 := rfl
      _ < (h : ℚ) := hh.1

/-- Witness for C9: against the defaulted advertised cap 10000, a
region with 9900 hits (under the server limit) exceeds the effective
cap 9800 and is therefore split. -/
theorem effective_cap_98_percent_witness :
    ((9900 : ℕ) : ℚ) > effective_maxfeatures none (some 10000) :=
  (effective_cap_98_percent 10000 0 9900 none).2.2.1 (by norm_num)

/-! ## Keyword options persist on the instance (C10)

`WFS.get_feature` (LK_WFS.py:517-531) begins with

    for key, value in kwargs.items():
        setattr(self, key, value)

then reads `self.count` / `self.clip_gdf` via `hasattr`, so an option
supplied in one call stays on the instance and governs later calls
unless overwritten (`WFSClient.get_features`, LK_WFS_v2.py:384-391,
does the same for its options). -/

/-- The slice of the instance state holding the `get_feature` options. -/
structure SessionOptions where
  count : Option ℤ
  clip_gdf : Option Bool
deriving DecidableEq, Repr

/-- The `setattr` loop at the top of `get_feature`: each option present
in `kwargs` overwrites the instance attribute, absent ones are left as
they were. -/
def apply_kwargs (s : SessionOptions) (kwCount : Option ℤ)
    (kwClip : Option Bool) : SessionOptions :=
  { count := match kwCount with
      | some v => some v
      | none => s.count,
    clip_gdf := match kwClip with
      | some v => some v
      | none => s.clip_gdf }

/-- The `count` value the call then uses (LK_WFS.py:522-525):
`self.count` when the attribute exists, else `None`. -/
def effective_count (s : SessionOptions) : Option ℤ :=
  s.count

/-- The clip flag the call then uses (LK_WFS.py:528-531):
`self.clip_gdf` when the attribute exists, else `True`. -/
def effective_clip (s : SessionOptions) : Bool :=
  s.clip_gdf.getD true

/-- C10: options supplied to one call persist — a second call with no
options behaves exactly like the first (same instance state, same
effective `count` and clip flag), and an option supplied again in the
second call overwrites the stored one. -/
theorem kwargs_persist (s0 : SessionOptions) (n m : ℤ) (b b' : Bool) :
    apply_kwargs (apply_kwargs s0 (some n) (some b)) none none =
      apply_kwargs s0 (some n) (some b) ∧
    effective_count (apply_kwargs (apply_kwargs s0 (some n) (some b)) none none) =
      some n ∧
    effective_clip (apply_kwargs (apply_kwargs s0 (some n) (some b)) none none) =
      b ∧
    effective_count
      (apply_kwargs (apply_kwargs s0 (some n) (some b)) (some m) (some b')) =
      some m ∧
    effective_clip
      (apply_kwargs (apply_kwargs s0 (some n) (some b)) (some m) (some b')) =
      b' :=
  ⟨rfl, rfl, rfl, rfl, rfl⟩

end LKWFS
